import Mathlib

/-!
Verification of the trustify ingestion-and-resolution engine specification
against a shallow embedding of the repository's source code.

Database tables are embedded as Lean lists of row structures, surrogate ids
as natural numbers handed out by a counter, and each repository operation as
a pure function from the database state to a (returned row, new state) pair.
-/

namespace Trustify

/-! ### Advisory store

Embedding of src/api/src/system/advisory/mod.rs: the advisory table and the
operations get_advisory (lines 22-35) and ingest_advisory (lines 37-56).
-/

/-- Row of the advisory table: surrogate id plus the natural-key triple. -/
structure AdvisoryRow where
  id : Nat
  identifier : String
  location : String
  sha256 : String
deriving DecidableEq, Repr

/-- State of the advisory table, with the counter producing fresh ids. -/
structure AdvisoryDb where
  rows : List AdvisoryRow
  nextId : Nat
deriving DecidableEq, Repr

/-- Filter condition of get_advisory: all three columns must match. -/
def advisoryMatches (identifier location sha256 : String) (r : AdvisoryRow) : Bool :=
  (r.identifier == identifier) && (r.location == location) && (r.sha256 == sha256)

/-- Embedding of InnerSystem::get_advisory: find one row matching the
identifier, location and sha256 filters. -/
def get_advisory (db : AdvisoryDb) (identifier location sha256 : String) :
    Option AdvisoryRow :=
  db.rows.find? (advisoryMatches identifier location sha256)

/-- Embedding of InnerSystem::ingest_advisory: return the existing row when
the triple is already present, otherwise insert a fresh row. -/
def ingest_advisory (db : AdvisoryDb) (identifier location sha256 : String) :
    AdvisoryRow × AdvisoryDb :=
  match get_advisory db identifier location sha256 with
  | Option.some found => (found, db)
  | Option.none =>
    let row : AdvisoryRow :=
      { id := db.nextId, identifier := identifier, location := location, sha256 := sha256 }
    (row, { rows := db.rows ++ [row], nextId := db.nextId + 1 })

theorem find?_append_of_none {α : Type} (p : α → Bool) (l₁ l₂ : List α)
    (h : l₁.find? p = Option.none) : (l₁ ++ l₂).find? p = l₂.find? p := by
  induction l₁ with
  | nil => simp
  | cons a t ih =>
    rw [List.find?_cons] at h
    cases hpa : p a with
    | true => simp [hpa] at h
    | false =>
      rw [hpa] at h
      simpa [List.find?_cons, hpa] using ih h

theorem ingest_advisory_fields (db : AdvisoryDb) (i l s : String) :
    ((ingest_advisory db i l s).1).identifier = i ∧
    ((ingest_advisory db i l s).1).location = l ∧
    ((ingest_advisory db i l s).1).sha256 = s := by
  unfold ingest_advisory
  cases hfind : get_advisory db i l s with
  | none => exact ⟨rfl, rfl, rfl⟩
  | some found =>
    have hmatch := List.find?_some hfind
    simp only [advisoryMatches, Bool.and_eq_true, beq_iff_eq] at hmatch
    exact ⟨hmatch.1.1, hmatch.1.2, hmatch.2⟩

theorem get_advisory_after_ingest (db : AdvisoryDb) (i l s : String) :
    get_advisory (ingest_advisory db i l s).2 i l s =
      Option.some (ingest_advisory db i l s).1 := by
  unfold ingest_advisory
  cases hfind : get_advisory db i l s with
  | some found => simpa using hfind
  | none =>
    simp only [get_advisory] at hfind ⊢
    rw [find?_append_of_none _ _ _ hfind]
    simp [advisoryMatches]

theorem ingest_advisory_of_found (db : AdvisoryDb) (i l s : String) (r : AdvisoryRow)
    (h : get_advisory db i l s = Option.some r) : ingest_advisory db i l s = (r, db) := by
  unfold ingest_advisory
  rw [h]

theorem ingest_advisory_of_none (db : AdvisoryDb) (i l s : String)
    (h : get_advisory db i l s = Option.none) :
    ingest_advisory db i l s =
      ({ id := db.nextId, identifier := i, location := l, sha256 := s },
       { rows := db.rows ++ [{ id := db.nextId, identifier := i, location := l, sha256 := s }],
         nextId := db.nextId + 1 }) := by
  unfold ingest_advisory
  rw [h]

theorem ingest_advisory_stable (db : AdvisoryDb) (i l s : String) :
    ingest_advisory (ingest_advisory db i l s).2 i l s =
      ((ingest_advisory db i l s).1, (ingest_advisory db i l s).2) :=
  ingest_advisory_of_found _ i l s _ (get_advisory_after_ingest db i l s)

/-- Claim C1: advisory identity is the triple (identifier, location, digest).
Ingesting the identical triple a second time returns the same advisory row
and leaves the table unchanged, while ingesting the same identifier and
location with a different digest returns a distinct row, creating it fresh
whenever no row with the new digest exists yet. -/
theorem advisory_identity_is_triple (db : AdvisoryDb) (i l s s' : String) (h : s ≠ s') :
    (ingest_advisory (ingest_advisory db i l s).2 i l s).1 = (ingest_advisory db i l s).1 ∧
    (ingest_advisory (ingest_advisory db i l s).2 i l s).2 = (ingest_advisory db i l s).2 ∧
    (ingest_advisory (ingest_advisory db i l s).2 i l s').1 ≠ (ingest_advisory db i l s).1 ∧
    (get_advisory (ingest_advisory db i l s).2 i l s' = Option.none →
      ((ingest_advisory (ingest_advisory db i l s).2 i l s').2).rows =
        ((ingest_advisory db i l s).2).rows ++
          [(ingest_advisory (ingest_advisory db i l s).2 i l s').1]) := by
  refine ⟨?_, ?_, ?_, ?_⟩
  · rw [ingest_advisory_stable]
  · rw [ingest_advisory_stable]
  · intro heq
    have h1 : ((ingest_advisory (ingest_advisory db i l s).2 i l s').1).sha256 = s' :=
      (ingest_advisory_fields _ i l s').2.2
    have h2 : ((ingest_advisory db i l s).1).sha256 = s :=
      (ingest_advisory_fields db i l s).2.2
    rw [heq, h2] at h1
    exact h h1
  · intro hnone
    rw [ingest_advisory_of_none _ i l s' hnone]

theorem advisory_identity_is_triple_witness :
    (("2" : String) ≠ "89") ∧
    ((ingest_advisory (ingest_advisory ⟨[], 0⟩ "RHSA-GHSA-1" "http://db.com/rhsa-ghsa-2" "2").2
        "RHSA-GHSA-1" "http://db.com/rhsa-ghsa-2" "2").1 =
      (ingest_advisory ⟨[], 0⟩ "RHSA-GHSA-1" "http://db.com/rhsa-ghsa-2" "2").1 ∧
    (ingest_advisory (ingest_advisory ⟨[], 0⟩ "RHSA-GHSA-1" "http://db.com/rhsa-ghsa-2" "2").2
        "RHSA-GHSA-1" "http://db.com/rhsa-ghsa-2" "2").2 =
      (ingest_advisory ⟨[], 0⟩ "RHSA-GHSA-1" "http://db.com/rhsa-ghsa-2" "2").2 ∧
    (ingest_advisory (ingest_advisory ⟨[], 0⟩ "RHSA-GHSA-1" "http://db.com/rhsa-ghsa-2" "2").2
        "RHSA-GHSA-1" "http://db.com/rhsa-ghsa-2" "89").1 ≠
      (ingest_advisory ⟨[], 0⟩ "RHSA-GHSA-1" "http://db.com/rhsa-ghsa-2" "2").1 ∧
    (get_advisory (ingest_advisory ⟨[], 0⟩ "RHSA-GHSA-1" "http://db.com/rhsa-ghsa-2" "2").2
        "RHSA-GHSA-1" "http://db.com/rhsa-ghsa-2" "89" = Option.none →
      ((ingest_advisory (ingest_advisory ⟨[], 0⟩ "RHSA-GHSA-1" "http://db.com/rhsa-ghsa-2" "2").2
          "RHSA-GHSA-1" "http://db.com/rhsa-ghsa-2" "89").2).rows =
        ((ingest_advisory ⟨[], 0⟩ "RHSA-GHSA-1" "http://db.com/rhsa-ghsa-2" "2").2).rows ++
          [(ingest_advisory (ingest_advisory ⟨[], 0⟩ "RHSA-GHSA-1" "http://db.com/rhsa-ghsa-2" "2").2
              "RHSA-GHSA-1" "http://db.com/rhsa-ghsa-2" "89").1])) :=
  ⟨by decide,
   advisory_identity_is_triple ⟨[], 0⟩ "RHSA-GHSA-1" "http://db.com/rhsa-ghsa-2" "2" "89"
     (by decide)⟩

/-! ### Organization, product and product-version store

Embedding of src/modules/ingestor/src/graph/organization.rs,
src/modules/ingestor/src/graph/product/mod.rs and the product-version link
operation of src/modules/ingestor/src/graph/sbom/mod.rs (lines 736-745).
-/

/-- Row of the organization table (organization.rs). -/
structure OrganizationRow where
  id : Nat
  name : String
  cpe_key : Option String
  website : Option String
deriving DecidableEq, Repr

/-- Payload of ingest_organization (organization.rs lines 8-11). -/
structure OrganizationInformation where
  cpe_key : Option String
  website : Option String
deriving DecidableEq, Repr

/-- Embedding of OrganizationInformation::has_data (organization.rs lines 14-16). -/
def OrganizationInformation.has_data (info : OrganizationInformation) : Bool :=
  info.cpe_key.isSome || info.website.isSome

/-- Row of the product table (product/mod.rs). -/
structure ProductRow where
  id : Nat
  name : String
  cpe_key : Option String
  vendor_id : Option Nat
deriving DecidableEq, Repr

/-- Row of the product_version table (product/mod.rs lines 49-54). -/
structure ProductVersionRow where
  id : Nat
  product_id : Nat
  sbom_id : Option Nat
  version : String
deriving DecidableEq, Repr

/-- CPE identity reduced to the two keys the product code reads
(cpe.vendor() and cpe.product()). -/
structure CpeKeys where
  vendor : String
  product : String
deriving DecidableEq, Repr

/-- Payload of ingest_product (product/mod.rs lines 121-125). -/
structure ProductInformation where
  vendor : Option String
  cpe : Option CpeKeys
deriving DecidableEq, Repr

/-- Combined state of the three tables, with one fresh-id counter. -/
structure GraphDb where
  organizations : List OrganizationRow
  products : List ProductRow
  productVersions : List ProductVersionRow
  nextId : Nat
deriving DecidableEq, Repr

/-- Embedding of Graph::get_organization_by_name (organization.rs lines 43-53). -/
def get_organization_by_name (db : GraphDb) (name : String) : Option OrganizationRow :=
  db.organizations.find? (fun r => r.name == name)

/-- Embedding of Graph::ingest_organization (organization.rs lines 55-87): when
the name is found and the new information has any data, both website and
cpe_key are set to the new information's values and the row is updated;
otherwise the found row is returned unchanged; an unknown name inserts a
fresh row. -/
def ingest_organization (db : GraphDb) (name : String) (info : OrganizationInformation) :
    OrganizationRow × GraphDb :=
  match get_organization_by_name db name with
  | Option.some found =>
    if info.has_data then
      let updated : OrganizationRow :=
        { found with website := info.website, cpe_key := info.cpe_key }
      (updated,
       { db with organizations :=
           db.organizations.map (fun r => if r.id == found.id then updated else r) })
    else
      (found, db)
  | Option.none =>
    let row : OrganizationRow :=
      { id := db.nextId, name := name, cpe_key := info.cpe_key, website := info.website }
    (row, { db with organizations := db.organizations ++ [row], nextId := db.nextId + 1 })

/-- Embedding of Graph::get_product_by_organization (product/mod.rs lines
219-237): resolve the organization by name, then find its related product. -/
def get_product_by_organization (db : GraphDb) (org name : String) : Option ProductRow :=
  match get_organization_by_name db org with
  | Option.some found =>
    db.products.find? (fun p => (p.vendor_id == Option.some found.id) && (p.name == name))
  | Option.none => Option.none

/-- Embedding of Graph::get_product_by_name (product/mod.rs lines 206-217). -/
def get_product_by_name (db : GraphDb) (name : String) : Option ProductRow :=
  db.products.find? (fun p => p.name == name)

/-- Embedding of Graph::ingest_product (product/mod.rs lines 141-191): with a
vendor, look up the product by organization and return it when found, else
ingest the organization and insert the product; with no vendor, insert a
fresh product row unconditionally. -/
def ingest_product (db : GraphDb) (name : String) (info : ProductInformation) :
    ProductRow × GraphDb :=
  let cpe_key := info.cpe.map (fun c => c.product)
  match info.vendor with
  | Option.some vendor =>
    match get_product_by_organization db vendor name with
    | Option.some found => (found, db)
    | Option.none =>
      let organization_cpe_key := info.cpe.map (fun c => c.vendor)
      let orgResult :=
        ingest_organization db vendor
          { cpe_key := organization_cpe_key, website := Option.none }
      let db1 := orgResult.2
      let row : ProductRow :=
        { id := db1.nextId, name := name, cpe_key := cpe_key,
          vendor_id := Option.some orgResult.1.id }
      (row, { db1 with products := db1.products ++ [row], nextId := db1.nextId + 1 })
  | Option.none =>
    let row : ProductRow :=
      { id := db.nextId, name := name, cpe_key := cpe_key, vendor_id := Option.none }
    (row, { db with products := db.products ++ [row], nextId := db.nextId + 1 })

/-- Modelled from the spec: ProductVersionContext::link_to_sbom is not under
src/ (only its callers in ingest_product_version are); per the spec's
ProductVersion lifecycle, linking records the SBOM link on the product
version row. -/
def link_to_sbom (db : GraphDb) (pv : ProductVersionRow) (sbomId : Nat) :
    ProductVersionRow × GraphDb :=
  let updated : ProductVersionRow := { pv with sbom_id := Option.some sbomId }
  (updated,
   { db with productVersions :=
       db.productVersions.map (fun r => if r.id == pv.id then updated else r) })

/-- Embedding of ProductContext::get_version (product/mod.rs lines 103-118). -/
def get_version (db : GraphDb) (productId : Nat) (version : String) :
    Option ProductVersionRow :=
  db.productVersions.find? (fun r => (r.product_id == productId) && (r.version == version))

/-- Embedding of ProductContext::ingest_product_version (product/mod.rs lines
29-66): an existing version row is linked to the SBOM only when its sbom_id
is still unset; a new version row is inserted with sbom_id None and then
linked when an SBOM id is supplied. -/
def ingest_product_version (db : GraphDb) (productId : Nat) (version : String)
    (sbomId : Option Nat) : ProductVersionRow × GraphDb :=
  match get_version db productId version with
  | Option.some found =>
    match sbomId with
    | Option.some id =>
      if found.sbom_id = Option.none then link_to_sbom db found id else (found, db)
    | Option.none => (found, db)
  | Option.none =>
    let row : ProductVersionRow :=
      { id := db.nextId, product_id := productId, sbom_id := Option.none, version := version }
    let db1 :=
      { db with productVersions := db.productVersions ++ [row], nextId := db.nextId + 1 }
    match sbomId with
    | Option.some id => link_to_sbom db1 row id
    | Option.none => (row, db1)

/-- Embedding of SbomContext::link_to_product (sbom/mod.rs lines 736-745):
the product version's sbom_id is set to the calling SBOM's id with no guard
on its current value. -/
def link_to_product (db : GraphDb) (sbomId : Nat) (pv : ProductVersionRow) :
    ProductVersionRow × GraphDb :=
  let updated : ProductVersionRow := { pv with sbom_id := Option.some sbomId }
  (updated,
   { db with productVersions :=
       db.productVersions.map (fun r => if r.id == pv.id then updated else r) })

/-- Empty database state used for concrete evaluations. -/
def emptyGraphDb : GraphDb :=
  { organizations := [], products := [], productVersions := [], nextId := 0 }

/-- Fixture: product information with neither vendor nor CPE. -/
def noProductInfo : ProductInformation := { vendor := Option.none, cpe := Option.none }

/-- Fixture: organization information carrying only a website. -/
def infoWebsite : OrganizationInformation :=
  { cpe_key := Option.none, website := Option.some "https://redhat.com" }

/-- Fixture: organization information carrying only a CPE key. -/
def infoCpe : OrganizationInformation :=
  { cpe_key := Option.some "redhat", website := Option.none }

/-- Fixture: stored organization row that carries a website and no CPE key. -/
def redhatRow : OrganizationRow :=
  { id := 3, name := "redhat", cpe_key := Option.none,
    website := Option.some "https://redhat.com" }

/-- Fixture: database holding only redhatRow. -/
def redhatDb : GraphDb :=
  { organizations := [redhatRow], products := [], productVersions := [], nextId := 4 }

/-- Fixture: product version row already linked to SBOM 1. -/
def linkedPv : ProductVersionRow :=
  { id := 10, product_id := 5, sbom_id := Option.some 1, version := "1.0" }

/-- Fixture: database holding only linkedPv. -/
def linkedPvDb : GraphDb :=
  { organizations := [], products := [], productVersions := [linkedPv], nextId := 11 }

/-- Claim C2: evaluating ingest_product twice with the same name and no
vendor on an empty database shows the second call inserting and returning a
second, distinct product row instead of returning the first one: the
vendor-less branch of ingest_product performs no lookup before inserting. -/
theorem ingest_product_no_vendor_duplicates :
    ((ingest_product (ingest_product emptyGraphDb "trustify" noProductInfo).2
        "trustify" noProductInfo).1.id ≠
      (ingest_product emptyGraphDb "trustify" noProductInfo).1.id) ∧
    ((ingest_product (ingest_product emptyGraphDb "trustify" noProductInfo).2
        "trustify" noProductInfo).2.products.length = 2) ∧
    ((ingest_product emptyGraphDb "trustify" noProductInfo).1.name = "trustify") ∧
    ((ingest_product (ingest_product emptyGraphDb "trustify" noProductInfo).2
        "trustify" noProductInfo).1.name = "trustify") := by
  decide

/-- Claim C7 counterexample: an organization ingested with a website and then
re-ingested with only a CPE key has its stored website cleared, because
ingest_organization overwrites both fields whenever the new information has
any data. -/
theorem ingest_organization_clears_website :
    ((ingest_organization emptyGraphDb "redhat" infoWebsite).1.website =
      Option.some "https://redhat.com") ∧
    ((ingest_organization (ingest_organization emptyGraphDb "redhat" infoWebsite).2
        "redhat" infoCpe).1.website = Option.none) ∧
    ((ingest_organization (ingest_organization emptyGraphDb "redhat" infoWebsite).2
        "redhat" infoCpe).2.organizations =
      [{ id := 0, name := "redhat", cpe_key := Option.some "redhat",
         website := Option.none }]) := by
  decide

/-- Claim C7 (amended): for an existing organization, ingest_organization
returns the existing row with both website and cpe_key replaced by the new
information values whenever that information has any data — clearing any
field the new information lacks — and returns the row unchanged only when
the new information has no data at all. -/
theorem ingest_organization_merge (db : GraphDb) (name : String)
    (info : OrganizationInformation) (found : OrganizationRow)
    (h : get_organization_by_name db name = Option.some found) :
    (info.has_data = true →
      (ingest_organization db name info).1 =
        { found with website := info.website, cpe_key := info.cpe_key }) ∧
    (info.has_data = false → ingest_organization db name info = (found, db)) := by
  unfold ingest_organization
  rw [h]
  constructor
  · intro hdata
    rw [hdata]
    rfl
  · intro hdata
    rw [hdata]
    rfl

theorem ingest_organization_merge_witness :
    (get_organization_by_name redhatDb "redhat" = Option.some redhatRow) ∧
    ((infoCpe.has_data = true →
      (ingest_organization redhatDb "redhat" infoCpe).1 =
        { redhatRow with website := infoCpe.website, cpe_key := infoCpe.cpe_key }) ∧
    (infoCpe.has_data = false →
      ingest_organization redhatDb "redhat" infoCpe = (redhatRow, redhatDb))) :=
  ⟨by decide, ingest_organization_merge redhatDb "redhat" infoCpe redhatRow (by decide)⟩

/-- Claim C9 counterexample: a product version whose SBOM link is already set
to SBOM 1 has that link overwritten to SBOM 2 by link_to_product, which sets
sbom_id without checking the current value. -/
theorem link_to_product_overwrites :
    ((link_to_product linkedPvDb 2 linkedPv).1.sbom_id = Option.some 2) ∧
    ((link_to_product linkedPvDb 2 linkedPv).1.sbom_id ≠ Option.some 1) ∧
    ((link_to_product linkedPvDb 2 linkedPv).2.productVersions =
      [{ id := 10, product_id := 5, sbom_id := Option.some 2, version := "1.0" }]) := by
  decide

/-- Claim C9 (amended): ingest_product_version never overwrites an existing
SBOM link — re-ingesting an existing product version with any (even
different) SBOM id returns the row with its original link and leaves the
database unchanged — but link_to_product unconditionally sets the product
version sbom_id to the calling SBOM id, overwriting any existing link. -/
theorem product_version_sbom_link_policy (db : GraphDb) (productId : Nat)
    (version : String) (sbomId u : Nat) (found : ProductVersionRow)
    (hfound : get_version db productId version = Option.some found)
    (hset : found.sbom_id = Option.some u) :
    (ingest_product_version db productId version (Option.some sbomId) = (found, db)) ∧
    ((ingest_product_version db productId version (Option.some sbomId)).1.sbom_id =
      Option.some u) ∧
    (∀ (db2 : GraphDb) (s : Nat) (pv : ProductVersionRow),
      (link_to_product db2 s pv).1.sbom_id = Option.some s) := by
  have hcall : ingest_product_version db productId version (Option.some sbomId) = (found, db) := by
    unfold ingest_product_version
    rw [hfound]
    simp [hset]
  refine ⟨hcall, ?_, ?_⟩
  · rw [hcall]
    exact hset
  · intro db2 s pv
    rfl

theorem product_version_sbom_link_policy_witness :
    (get_version linkedPvDb 5 "1.0" = Option.some linkedPv) ∧
    (linkedPv.sbom_id = Option.some 1) ∧
    ((ingest_product_version linkedPvDb 5 "1.0" (Option.some 2) = (linkedPv, linkedPvDb)) ∧
    ((ingest_product_version linkedPvDb 5 "1.0" (Option.some 2)).1.sbom_id = Option.some 1) ∧
    (∀ (db2 : GraphDb) (s : Nat) (pv : ProductVersionRow),
      (link_to_product db2 s pv).1.sbom_id = Option.some s)) :=
  ⟨by decide, by decide,
   product_version_sbom_link_policy linkedPvDb 5 "1.0" 2 1 linkedPv (by decide) (by decide)⟩

/-! ### SBOM store

Embedding of src/modules/ingestor/src/graph/sbom/mod.rs lines 65-138: the
sbom and sbom_node tables, get_sbom_by_digest and ingest_sbom. The sha256
parameter stands for the hex encoding of digests.sha256 computed at line
100, and the fresh-id counter stands for Uuid::now_v7 at line 115.
-/

/-- Row of the sbom table (sbom/mod.rs lines 125-135). -/
structure SbomRow where
  sbom_id : Nat
  node_id : String
  document_id : String
  location : String
  sha256 : String
  published : Option Nat
  authors : List String
deriving DecidableEq, Repr

/-- Row of the sbom_node table (sbom/mod.rs lines 117-121). -/
structure SbomNodeRow where
  sbom_id : Nat
  node_id : String
  name : String
deriving DecidableEq, Repr

/-- Embedding of SbomInformation (sbom/mod.rs lines 46-54), with the
published timestamp abstracted to a number. -/
structure SbomInformation where
  node_id : String
  name : String
  published : Option Nat
  authors : List String
deriving DecidableEq, Repr

/-- State of the two SBOM tables plus the fresh-id counter. -/
structure SbomDb where
  sboms : List SbomRow
  sbomNodes : List SbomNodeRow
  nextId : Nat
deriving DecidableEq, Repr

/-- Embedding of Graph::get_sbom_by_digest (sbom/mod.rs lines 76-89): find
one sbom row matching the location and sha256 filters. -/
def get_sbom_by_digest (db : SbomDb) (location sha256 : String) : Option SbomRow :=
  db.sboms.find? (fun r => (r.location == location) && (r.sha256 == sha256))

/-- Embedding of Graph::ingest_sbom (sbom/mod.rs lines 92-138): return the
existing row when (location, sha256) is already present, otherwise insert a
node row and an sbom row under a fresh id. -/
def ingest_sbom (db : SbomDb) (location sha256 document_id : String)
    (info : SbomInformation) : SbomRow × SbomDb :=
  match get_sbom_by_digest db location sha256 with
  | Option.some found => (found, db)
  | Option.none =>
    let sbom_id := db.nextId
    let nodeRow : SbomNodeRow :=
      { sbom_id := sbom_id, node_id := info.node_id, name := info.name }
    let row : SbomRow :=
      { sbom_id := sbom_id, node_id := info.node_id, document_id := document_id,
        location := location, sha256 := sha256, published := info.published,
        authors := info.authors }
    (row,
     { sboms := db.sboms ++ [row], sbomNodes := db.sbomNodes ++ [nodeRow],
       nextId := db.nextId + 1 })

theorem ingest_sbom_of_found (db : SbomDb) (loc dig docId : String)
    (info : SbomInformation) (r : SbomRow)
    (h : get_sbom_by_digest db loc dig = Option.some r) :
    ingest_sbom db loc dig docId info = (r, db) := by
  unfold ingest_sbom
  rw [h]

theorem get_sbom_after_ingest (db : SbomDb) (loc dig docId : String)
    (info : SbomInformation) :
    get_sbom_by_digest (ingest_sbom db loc dig docId info).2 loc dig =
      Option.some (ingest_sbom db loc dig docId info).1 := by
  unfold ingest_sbom
  cases hfind : get_sbom_by_digest db loc dig with
  | some found => simpa using hfind
  | none =>
    simp only [get_sbom_by_digest] at hfind ⊢
    rw [find?_append_of_none _ _ _ hfind]
    simp

/-- Claim C10: when an sbom row with the same location and digest already
exists, re-ingesting discards the newly supplied document id and metadata:
the first ingestion fixes the stored metadata, and a second ingestion with
the same location and digest but different document id and information
returns the first row and leaves the whole state (both tables) unchanged. -/
theorem ingest_sbom_reingest_discards_metadata (db : SbomDb)
    (loc dig docId docId2 : String) (info info2 : SbomInformation)
    (h : get_sbom_by_digest db loc dig = Option.none) :
    ((ingest_sbom db loc dig docId info).1.document_id = docId) ∧
    ((ingest_sbom db loc dig docId info).1.node_id = info.node_id) ∧
    ((ingest_sbom db loc dig docId info).1.published = info.published) ∧
    ((ingest_sbom db loc dig docId info).1.authors = info.authors) ∧
    (ingest_sbom (ingest_sbom db loc dig docId info).2 loc dig docId2 info2 =
      ((ingest_sbom db loc dig docId info).1, (ingest_sbom db loc dig docId info).2)) := by
  refine ⟨?_, ?_, ?_, ?_, ?_⟩
  · simp [ingest_sbom, h]
  · simp [ingest_sbom, h]
  · simp [ingest_sbom, h]
  · simp [ingest_sbom, h]
  · exact ingest_sbom_of_found _ loc dig docId2 info2 _
      (get_sbom_after_ingest db loc dig docId info)

/-- Fixture: metadata supplied with the first SBOM upload. -/
def sbomInfo1 : SbomInformation :=
  { node_id := "n1", name := "first", published := Option.some 5, authors := ["a1"] }

/-- Fixture: different metadata supplied with the re-upload. -/
def sbomInfo2 : SbomInformation :=
  { node_id := "n2", name := "second", published := Option.none, authors := [] }

/-- Fixture: empty SBOM store. -/
def emptySbomDb : SbomDb := { sboms := [], sbomNodes := [], nextId := 0 }

theorem ingest_sbom_reingest_discards_metadata_witness :
    (get_sbom_by_digest emptySbomDb "file://s" "abc" = Option.none) ∧
    (((ingest_sbom emptySbomDb "file://s" "abc" "doc-1" sbomInfo1).1.document_id = "doc-1") ∧
    ((ingest_sbom emptySbomDb "file://s" "abc" "doc-1" sbomInfo1).1.node_id =
      sbomInfo1.node_id) ∧
    ((ingest_sbom emptySbomDb "file://s" "abc" "doc-1" sbomInfo1).1.published =
      sbomInfo1.published) ∧
    ((ingest_sbom emptySbomDb "file://s" "abc" "doc-1" sbomInfo1).1.authors =
      sbomInfo1.authors) ∧
    (ingest_sbom (ingest_sbom emptySbomDb "file://s" "abc" "doc-1" sbomInfo1).2
        "file://s" "abc" "doc-2" sbomInfo2 =
      ((ingest_sbom emptySbomDb "file://s" "abc" "doc-1" sbomInfo1).1,
       (ingest_sbom emptySbomDb "file://s" "abc" "doc-1" sbomInfo1).2))) :=
  ⟨by decide,
   ingest_sbom_reingest_discards_metadata emptySbomDb "file://s" "abc" "doc-1" "doc-2"
     sbomInfo1 sbomInfo2 (by decide)⟩

/-! ### Transaction routing of writes

Embedding of the connection selection in src/graph/src/graph/mod.rs (lines
196-204) and of the connections the advisory-module writes in
src/api/src/system/advisory/mod.rs are issued on.
-/

/-- Embedding of Transactional: either no transaction or a handle to the
open one (the handle itself is irrelevant to connection routing). -/
inductive Transactional
  | none
  | some
deriving DecidableEq, Repr

/-- Targets a write can be issued on: the bare database connection or the
open transaction. -/
inductive ConnectionOrTransaction
  | connection
  | transaction
deriving DecidableEq, Repr

/-- Embedding of InnerGraph::connection (src/graph/src/graph/mod.rs lines
196-204): picks the transaction exactly when one is open. -/
def connection : Transactional → ConnectionOrTransaction
  | Transactional.none => ConnectionOrTransaction.connection
  | Transactional.some => ConnectionOrTransaction.transaction

/-- Connection used by the advisory-row insert inside
InnerSystem::ingest_advisory (src/api/src/system/advisory/mod.rs line 55):
the code calls model.insert(&self.db) on the bare connection, ignoring the
tx parameter it was given. -/
def ingest_advisory_insert_conn (tx : Transactional) : ConnectionOrTransaction :=
  ConnectionOrTransaction.connection

/-- Connection used by the advisory_cve insert inside
AdvisoryContext::ingest_cve (src/api/src/system/advisory/mod.rs line 120):
the code calls entity.insert(&self.system.connection(tx)). -/
def ingest_cve_insert_conn (tx : Transactional) : ConnectionOrTransaction :=
  connection tx

/-- Connection used by the fixed_package_version insert inside
AdvisoryContext::ingest_fixed_package_version (same file, line 243). -/
def ingest_fixed_package_version_insert_conn (tx : Transactional) : ConnectionOrTransaction :=
  connection tx

/-- Write trace of CsafLoader::load (csaf/loader.rs lines 18-84) for a new
document holding one vulnerability with one fixed package: the loader opens
a transaction (line 27) and hands it to every ingest call, so each write is
listed with the connection the called operation actually issues it on. -/
def csaf_load_write_conns : List (String × ConnectionOrTransaction) :=
  [("advisory", ingest_advisory_insert_conn Transactional.some),
   ("advisory_cve", ingest_cve_insert_conn Transactional.some),
   ("fixed_package_version", ingest_fixed_package_version_insert_conn Transactional.some)]

/-- Claim C3: during a document load that opened a transaction, the advisory
row insert of ingest_advisory goes to the bare database connection rather
than through the transaction handed to it, unlike the sibling writes of the
same load, so the load's writes do not all share the single per-document
transaction. -/
theorem advisory_insert_outside_transaction :
    (("advisory", ConnectionOrTransaction.connection) ∈ csaf_load_write_conns) ∧
    (csaf_load_write_conns.all
        (fun w => w.2 == ConnectionOrTransaction.transaction) = false) ∧
    (ingest_advisory_insert_conn Transactional.some ≠ connection Transactional.some) ∧
    (ingest_cve_insert_conn Transactional.some = connection Transactional.some) := by
  decide

/-! ### Importer run outcome

Embedding of ImportRunner::run_once_sbom
(src/modules/importer/src/server/sbom/mod.rs lines 29-103). The Walker, the
report builder and the ScannerError/RunOutput types live outside src/, so
the report is abstracted to its accumulated entries and the conversion of a
completed report into a run output is modelled from the spec.
-/

/-- Report accumulated by the shared ReportBuilder during a run, abstracted
to its list of per-item entries. -/
structure Report where
  entries : List String
deriving DecidableEq, Repr

/-- Outcome of a run: the report plus the optional continuation marker
(fields as constructed at sbom/mod.rs lines 91-94). -/
structure RunOutput where
  report : Report
  continuation : Option String
deriving DecidableEq, Repr

/-- Errors of a run, as used at sbom/mod.rs lines 37 and 89-95: a critical
error, or a normal error still carrying the run output. -/
inductive ScannerError
  | critical (err : String)
  | normal (err : String) (output : RunOutput)
deriving DecidableEq, Repr

/-- Embedding of ImportRunner::run_once_sbom (sbom/mod.rs lines 29-103): an
unparseable source URL escalates to ScannerError::critical (line 37); a
failed walk is mapped to ScannerError::normal carrying the report
accumulated so far and no continuation marker (lines 84-95); a completed
walk builds the run output from the report (lines 97-102, where the
conversion is modelled from the spec: the continuation marker is recorded
only on this success path). -/
def run_once_sbom (parsedUrl : Option String) (accumulated : Report) (marker : String)
    (walkError : Option String) : Except ScannerError RunOutput :=
  match parsedUrl with
  | Option.none => Except.error (ScannerError.critical "invalid source url")
  | Option.some _ =>
    match walkError with
    | Option.some err =>
      Except.error (ScannerError.normal err
        { report := accumulated, continuation := Option.none })
    | Option.none =>
      Except.ok { report := accumulated, continuation := Option.some marker }

/-- Report carried by a run result, whether it succeeded or failed. -/
def runReport : Except ScannerError RunOutput → Option Report
  | Except.ok out => Option.some out.report
  | Except.error (ScannerError.normal _ out) => Option.some out.report
  | Except.error (ScannerError.critical _) => Option.none

/-- Continuation marker carried by a run result. -/
def runContinuation : Except ScannerError RunOutput → Option String
  | Except.ok out => out.continuation
  | Except.error (ScannerError.normal _ out) => out.continuation
  | Except.error (ScannerError.critical _) => Option.none

/-- Claim C8: for a run whose walk fails, run_once_sbom still carries the
report accumulated up to the failure but no continuation marker; the
continuation marker is recorded exactly when the walk completes without a
critical failure. -/
theorem run_once_sbom_continuation (u : String) (accumulated : Report)
    (marker : String) (walkError : Option String) :
    (runReport (run_once_sbom (Option.some u) accumulated marker walkError) =
      Option.some accumulated) ∧
    (runContinuation (run_once_sbom (Option.some u) accumulated marker walkError) =
      if walkError = Option.none then Option.some marker else Option.none) ∧
    (∀ err : String,
      run_once_sbom (Option.some u) accumulated marker (Option.some err) =
        Except.error (ScannerError.normal err
          { report := accumulated, continuation := Option.none })) := by
  refine ⟨?_, ?_, ?_⟩
  · cases walkError <;> rfl
  · cases walkError <;> simp [run_once_sbom, runContinuation]
  · intro err
    rfl

/-! ### OSV events to version ranges

Embedding of events_to_range (src/modules/ingestor/src/service/advisory/
osv/loader.rs lines 263-281) and of the per-range status ingestion inside
OsvLoader::load (lines 113-192).
-/

/-- OSV range events, as consumed by events_to_range. -/
inductive OsvEvent
  | introduced (version : String)
  | fixed (version : String)
  | lastAffected (version : String)
  | limit (version : String)
deriving DecidableEq, Repr

/-- Modelled from the spec: the Version bound type of
graph::advisory::advisory_vulnerability is not under src/ (only its
construction in osv/loader.rs is); the spec gives the bound forms
Unbounded, Inclusive(v) and Exclusive(v). -/
inductive Version
  | inclusive (v : String)
  | exclusive (v : String)
  | unbounded
deriving DecidableEq, Repr

/-- Modelled from the spec: the VersionSpec type of
graph::advisory::advisory_vulnerability is not under src/; the spec gives
the forms Exact(v) and Range(lower, upper). -/
inductive VersionSpec
  | exact (v : String)
  | range (lower upper : Version)
deriving DecidableEq, Repr

/-- Modelled from the spec: VersionInfo carries the scheme tag next to the
spec, as constructed throughout osv/loader.rs lines 122-186. -/
structure VersionInfo where
  scheme : String
  spec : VersionSpec
deriving DecidableEq, Repr

/-- VersionInfo with the "semver" scheme hard-coded by the OSV loader. -/
def semverInfo (spec : VersionSpec) : VersionInfo := { scheme := "semver", spec := spec }

/-- Selector matched by the first arm of events_to_range. -/
def introducedVersion : OsvEvent → Option String
  | OsvEvent.introduced v => Option.some v
  | _ => Option.none

/-- Selector matched by the second arm of events_to_range. -/
def fixedVersion : OsvEvent → Option String
  | OsvEvent.fixed v => Option.some v
  | _ => Option.none

/-- Embedding of events_to_range (osv/loader.rs lines 263-281): the first
introduced version and the first fixed version found among the events. -/
def events_to_range (events : List OsvEvent) : Option String × Option String :=
  (events.findSome? introducedVersion, events.findSome? fixedVersion)

/-- Embedding of the per-range ingestion in OsvLoader::load (lines 113-192):
one affected range assertion according to which bounds were found (nothing
when neither was), followed by an exact fixed assertion when a fixed
version was found. -/
def osv_range_statuses (events : List OsvEvent) : List (String × VersionInfo) :=
  (match events_to_range events with
   | (Option.some start, Option.none) =>
     [("affected", semverInfo (VersionSpec.range (Version.inclusive start) Version.unbounded))]
   | (Option.none, Option.some e) =>
     [("affected", semverInfo (VersionSpec.range Version.unbounded (Version.exclusive e)))]
   | (Option.some start, Option.some e) =>
     [("affected", semverInfo (VersionSpec.range (Version.inclusive start) (Version.exclusive e)))]
   | (Option.none, Option.none) => []) ++
  (match events_to_range events with
   | (_, Option.some f) =>
     [("fixed", semverInfo (VersionSpec.exact f))]
   | _ => [])

/-- Claim C6 counterexample: of two fixed events in one range only the first
is used; the second ("2.0.0") appears neither as an exclusive upper bound
nor as a separate exact fixed assertion. -/
theorem osv_second_fixed_event_dropped :
    (osv_range_statuses [OsvEvent.fixed "1.0.0", OsvEvent.fixed "2.0.0"] =
      [("affected", semverInfo (VersionSpec.range Version.unbounded (Version.exclusive "1.0.0"))),
       ("fixed", semverInfo (VersionSpec.exact "1.0.0"))]) ∧
    (("fixed", semverInfo (VersionSpec.exact "2.0.0")) ∉
      osv_range_statuses [OsvEvent.fixed "1.0.0", OsvEvent.fixed "2.0.0"]) := by
  decide

/-- Versions of the introduced events of a range, in order. -/
def introducedEvents (events : List OsvEvent) : List String :=
  events.filterMap introducedVersion

/-- Versions of the fixed events of a range, in order. -/
def fixedEvents (events : List OsvEvent) : List String :=
  events.filterMap fixedVersion

theorem findSome?_eq_head?_filterMap {α β : Type} (f : α → Option β) (l : List α) :
    l.findSome? f = (l.filterMap f).head? := by
  induction l with
  | nil => rfl
  | cons a t ih =>
    cases hfa : f a with
    | none =>
      rw [List.findSome?_cons, List.filterMap_cons, hfa]
      exact ih
    | some b =>
      rw [List.findSome?_cons, List.filterMap_cons, hfa]
      rfl

/-- Claim C6 (amended): the first introduced event of a range becomes the
inclusive lower bound and the first fixed event the exclusive upper bound,
the latter also recorded as a separate exact-version fixed assertion; later
introduced or fixed events of the same range are ignored; with no fixed
event the upper bound is Unbounded, with no introduced event the lower
bound is Unbounded, and with neither event no assertion is produced. -/
theorem osv_range_uses_first_events (events : List OsvEvent) :
    osv_range_statuses events =
      match (introducedEvents events).head?, (fixedEvents events).head? with
      | Option.some s, Option.none =>
        [("affected", semverInfo (VersionSpec.range (Version.inclusive s) Version.unbounded))]
      | Option.none, Option.some e =>
        [("affected", semverInfo (VersionSpec.range Version.unbounded (Version.exclusive e))),
         ("fixed", semverInfo (VersionSpec.exact e))]
      | Option.some s, Option.some e =>
        [("affected", semverInfo (VersionSpec.range (Version.inclusive s) (Version.exclusive e))),
         ("fixed", semverInfo (VersionSpec.exact e))]
      | Option.none, Option.none => [] := by
  have h1 := findSome?_eq_head?_filterMap introducedVersion events
  have h2 := findSome?_eq_head?_filterMap fixedVersion events
  unfold osv_range_statuses events_to_range introducedEvents fixedEvents
  rw [h1, h2]
  cases (events.filterMap introducedVersion).head? <;>
    cases (events.filterMap fixedVersion).head? <;> rfl

/-! ### Relationship graph and transitive closure

Embedding of the package relationship graph of one SBOM
(src/modules/ingestor/src/graph/sbom/mod.rs): typed edges, the packages an
SBOM describes, the transitive-closure query behind
related_packages_transitively (lines 665-703) and vulnerability_assertions
(lines 706-734).
-/

/-- Package (or SBOM node) identity: qualified package ids. -/
abbrev Pkg := Nat

/-- Relationship kinds (trustify_entity relationship enum), reduced to the
kinds used by the resolver plus a representative of the others. -/
inductive Relationship
  | describedBy
  | dependencyOf
  | containedBy
  | packageOf
deriving DecidableEq, Repr

/-- Edge of package_relates_to_package within one SBOM. -/
structure PackageEdge where
  left : Pkg
  relationship : Relationship
  right : Pkg
deriving DecidableEq, Repr

/-- Packages one step away from p under the requested kinds: the left
endpoints of matching edges whose right endpoint is p (the closure query
selects left_package_id, sbom/mod.rs lines 646 and 687). -/
def successors (edges : List PackageEdge) (kinds : List Relationship) (p : Pkg) : List Pkg :=
  (edges.filter (fun e => (e.right == p) && kinds.contains e.relationship)).map
    (fun e => e.left)

/-- One step of the closure: b is a direct successor of a. -/
def stepRel (edges : List PackageEdge) (kinds : List Relationship) (a b : Pkg) : Prop :=
  b ∈ successors edges kinds a

/-- Every node id of the edge list, plus the starting package. -/
def nodesUniverse (edges : List PackageEdge) (start : Pkg) : Finset Pkg :=
  insert start (edges.foldr (fun e acc => insert e.left (insert e.right acc)) ∅)

/-- Modelled from the spec: the transitive-closure query
(QualifiedPackageTransitive, invoked at sbom/mod.rs lines 683-699) is a SQL
function defined in the migrations, outside src/; the spec describes the
closure as a worklist fixpoint in which a package already visited is not
re-expanded. The fuel argument only makes the recursion structural;
closure_fuel below always suffices. -/
def closureAux (succ : Pkg → List Pkg) : Nat → List Pkg → List Pkg → List Pkg
  | 0, visited, _ => visited
  | _ + 1, visited, [] => visited
  | fuel + 1, visited, p :: rest =>
    if p ∈ visited then closureAux succ fuel visited rest
    else closureAux succ fuel (p :: visited) (succ p ++ rest)

/-- Fuel sufficient to drain the worklist: one step for the start plus, for
every node of the universe, one visiting step and one skipping step for
each successor it contributes. -/
def closure_fuel (succ : Pkg → List Pkg) (univ : Finset Pkg) : Nat :=
  1 + univ.sum (fun p => (succ p).length)

/-- Spec-modelled transitive closure behind
SbomContext::related_packages_transitively (sbom/mod.rs lines 665-703):
worklist iteration from the starting package over the one-step successor
function. -/
def related_packages_transitively (edges : List PackageEdge)
    (kinds : List Relationship) (start : Pkg) : List Pkg :=
  closureAux (successors edges kinds)
    (closure_fuel (successors edges kinds) (nodesUniverse edges start)) [] [start]

theorem closureAux_mono (succ : Pkg → List Pkg) (fuel : Nat) :
    ∀ (visited wl : List Pkg) (x : Pkg), x ∈ visited →
      x ∈ closureAux succ fuel visited wl := by
  induction fuel with
  | zero =>
    intro visited wl x hx
    simpa [closureAux] using hx
  | succ fuel ih =>
    intro visited wl x hx
    cases wl with
    | nil => simpa [closureAux] using hx
    | cons p rest =>
      by_cases hp : p ∈ visited
      · simp only [closureAux, if_pos hp]
        exact ih visited rest x hx
      · simp only [closureAux, if_neg hp]
        exact ih (p :: visited) (succ p ++ rest) x (List.mem_cons_of_mem p hx)

theorem closureAux_sound (succ : Pkg → List Pkg) (P : Pkg → Prop)
    (hstep : ∀ a b, P a → b ∈ succ a → P b) (fuel : Nat) :
    ∀ (visited wl : List Pkg), (∀ v ∈ visited, P v) → (∀ w ∈ wl, P w) →
      ∀ x ∈ closureAux succ fuel visited wl, P x := by
  induction fuel with
  | zero =>
    intro visited wl hv hw x hx
    simp only [closureAux] at hx
    exact hv x hx
  | succ fuel ih =>
    intro visited wl hv hw x hx
    cases wl with
    | nil =>
      simp only [closureAux] at hx
      exact hv x hx
    | cons p rest =>
      by_cases hp : p ∈ visited
      · simp only [closureAux, if_pos hp] at hx
        exact ih visited rest hv (fun w hmem => hw w (List.mem_cons_of_mem p hmem)) x hx
      · simp only [closureAux, if_neg hp] at hx
        refine ih (p :: visited) (succ p ++ rest) ?_ ?_ x hx
        · intro v hva
          rcases List.mem_cons.mp hva with hvp | hvv
          · exact hvp ▸ hw p (List.mem_cons_self p rest)
          · exact hv v hvv
        · intro w hwa
          rcases List.mem_append.mp hwa with hws | hwr
          · exact hstep p w (hw p (List.mem_cons_self p rest)) hws
          · exact hw w (List.mem_cons_of_mem p hwr)

theorem closureAux_nodup (succ : Pkg → List Pkg) (fuel : Nat) :
    ∀ (visited wl : List Pkg), visited.Nodup →
      (closureAux succ fuel visited wl).Nodup := by
  induction fuel with
  | zero =>
    intro visited wl hv
    simpa [closureAux] using hv
  | succ fuel ih =>
    intro visited wl hv
    cases wl with
    | nil => simpa [closureAux] using hv
    | cons p rest =>
      by_cases hp : p ∈ visited
      · simp only [closureAux, if_pos hp]
        exact ih visited rest hv
      · simp only [closureAux, if_neg hp]
        exact ih (p :: visited) (succ p ++ rest) (List.nodup_cons.mpr ⟨hp, hv⟩)

theorem closureAux_complete (succ : Pkg → List Pkg) (univ : Finset Pkg)
    (hsucc : ∀ p, ∀ s ∈ succ p, s ∈ univ) (fuel : Nat) :
    ∀ (visited wl : List Pkg),
      (∀ w ∈ wl, w ∈ univ) →
      (wl.length +
          (univ.filter (fun x => ¬ x ∈ visited)).sum (fun q => (succ q).length) ≤ fuel) →
      (∀ v ∈ visited, ∀ s ∈ succ v, s ∈ visited ∨ s ∈ wl) →
      (∀ w ∈ wl, w ∈ closureAux succ fuel visited wl) ∧
      (∀ v ∈ closureAux succ fuel visited wl, ∀ s ∈ succ v,
        s ∈ closureAux succ fuel visited wl) := by
  induction fuel with
  | zero =>
    intro visited wl hwl hfuel hinv
    have hlen : wl.length = 0 := by omega
    have hwlnil : wl = [] := List.length_eq_zero.mp hlen
    subst hwlnil
    constructor
    · intro w hw
      cases hw
    · intro v hv s hs
      simp only [closureAux] at hv ⊢
      rcases hinv v hv s hs with h1 | h2
      · exact h1
      · cases h2
  | succ fuel ih =>
    intro visited wl hwl hfuel hinv
    cases wl with
    | nil =>
      constructor
      · intro w hw
        cases hw
      · intro v hv s hs
        simp only [closureAux] at hv ⊢
        rcases hinv v hv s hs with h1 | h2
        · exact h1
        · cases h2
    | cons p rest =>
      by_cases hp : p ∈ visited
      · have hrec := ih visited rest
          (fun w hw => hwl w (List.mem_cons_of_mem p hw))
          (by
            simp only [List.length_cons] at hfuel
            omega)
          (by
            intro v hv s hs
            rcases hinv v hv s hs with h1 | h2
            · exact Or.inl h1
            · rcases List.mem_cons.mp h2 with hsp | hsr
              · exact Or.inl (hsp ▸ hp)
              · exact Or.inr hsr)
        simp only [closureAux, if_pos hp]
        constructor
        · intro w hw
          rcases List.mem_cons.mp hw with hwp | hwr
          · exact hwp ▸ closureAux_mono succ fuel visited rest p hp
          · exact hrec.1 w hwr
        · exact hrec.2
      · have hpu : p ∈ univ := hwl p (List.mem_cons_self p rest)
        have hset : univ.filter (fun x => ¬ x ∈ visited) =
            insert p (univ.filter (fun x => ¬ x ∈ (p :: visited))) := by
          ext x
          by_cases hxp : x = p
          · subst hxp
            simp [hpu, hp]
          · simp [hxp, List.mem_cons]
        have hpnot : p ∉ univ.filter (fun x => ¬ x ∈ (p :: visited)) := by
          simp [List.mem_cons]
        have hsum : (univ.filter (fun x => ¬ x ∈ visited)).sum (fun q => (succ q).length) =
            (succ p).length +
              (univ.filter (fun x => ¬ x ∈ (p :: visited))).sum
                (fun q => (succ q).length) := by
          rw [hset, Finset.sum_insert hpnot]
        have hrec := ih (p :: visited) (succ p ++ rest)
          (by
            intro w hw
            rcases List.mem_append.mp hw with hws | hwr
            · exact hsucc p w hws
            · exact hwl w (List.mem_cons_of_mem p hwr))
          (by
            rw [hsum] at hfuel
            simp only [List.length_cons] at hfuel
            simp only [List.length_append]
            omega)
          (by
            intro v hv s hs
            rcases List.mem_cons.mp hv with hvp | hvv
            · subst hvp
              exact Or.inr (List.mem_append.mpr (Or.inl hs))
            · rcases hinv v hvv s hs with h1 | h2
              · exact Or.inl (List.mem_cons_of_mem p h1)
              · rcases List.mem_cons.mp h2 with hsp | hsr
                · exact Or.inl (hsp ▸ List.mem_cons_self p visited)
                · exact Or.inr (List.mem_append.mpr (Or.inr hsr)))
        simp only [closureAux, if_neg hp]
        constructor
        · intro w hw
          rcases List.mem_cons.mp hw with hwp | hwr
          · exact hwp ▸ closureAux_mono succ fuel (p :: visited) (succ p ++ rest) p
              (List.mem_cons_self p visited)
          · exact hrec.1 w (List.mem_append.mpr (Or.inr hwr))
        · exact hrec.2

theorem mem_nodes_foldr (edges : List PackageEdge) (x : Pkg) :
    (x ∈ edges.foldr (fun e acc => insert e.left (insert e.right acc)) (∅ : Finset Pkg)) ↔
      ∃ e ∈ edges, x = e.left ∨ x = e.right := by
  induction edges with
  | nil => simp
  | cons e t ih =>
    simp only [List.foldr_cons, Finset.mem_insert, ih, List.mem_cons]
    constructor
    · rintro (h1 | h2 | ⟨e', he', h3⟩)
      · exact ⟨e, Or.inl rfl, Or.inl h1⟩
      · exact ⟨e, Or.inl rfl, Or.inr h2⟩
      · exact ⟨e', Or.inr he', h3⟩
    · rintro ⟨e', he' | he', h3⟩
      · subst he'
        rcases h3 with h3 | h3
        · exact Or.inl h3
        · exact Or.inr (Or.inl h3)
      · exact Or.inr (Or.inr ⟨e', he', h3⟩)

theorem successors_subset_universe (edges : List PackageEdge) (kinds : List Relationship)
    (start p : Pkg) : ∀ s ∈ successors edges kinds p, s ∈ nodesUniverse edges start := by
  intro s hs
  simp only [successors, List.mem_map, List.mem_filter] at hs
  obtain ⟨e, ⟨he, _⟩, rfl⟩ := hs
  unfold nodesUniverse
  exact Finset.mem_insert.mpr (Or.inr ((mem_nodes_foldr edges e.left).mpr ⟨e, he, Or.inl rfl⟩))

theorem mem_related_packages_transitively (edges : List PackageEdge)
    (kinds : List Relationship) (start x : Pkg) :
    x ∈ related_packages_transitively edges kinds start ↔
      Relation.ReflTransGen (stepRel edges kinds) start x := by
  constructor
  · intro hx
    refine closureAux_sound (successors edges kinds)
      (fun y => Relation.ReflTransGen (stepRel edges kinds) start y)
      (fun a b pa hb => pa.tail hb) _ [] [start] ?_ ?_ x hx
    · intro v hv
      cases hv
    · intro w hw
      rcases List.mem_cons.mp hw with h1 | h2
      · exact h1 ▸ Relation.ReflTransGen.refl
      · cases h2
  · intro hx
    have hwl : ∀ w ∈ [start], w ∈ nodesUniverse edges start := by
      intro w hw
      rcases List.mem_cons.mp hw with h1 | h2
      · exact h1 ▸ Finset.mem_insert_self _ _
      · cases h2
    have hfuel : ([start] : List Pkg).length +
        ((nodesUniverse edges start).filter (fun y => ¬ y ∈ ([] : List Pkg))).sum
          (fun q => (successors edges kinds q).length) ≤
        closure_fuel (successors edges kinds) (nodesUniverse edges start) := by
      have hfil : (nodesUniverse edges start).filter (fun y => ¬ y ∈ ([] : List Pkg)) =
          nodesUniverse edges start := by
        apply Finset.filter_true_of_mem
        intro y hy
        simp
      rw [hfil]
      simp [closure_fuel]
    have hinv : ∀ v ∈ ([] : List Pkg), ∀ s ∈ successors edges kinds v,
        s ∈ ([] : List Pkg) ∨ s ∈ [start] := by
      intro v hv
      cases hv
    have hcomp := closureAux_complete (successors edges kinds) (nodesUniverse edges start)
      (successors_subset_universe edges kinds start)
      (closure_fuel (successors edges kinds) (nodesUniverse edges start))
      [] [start] hwl hfuel hinv
    have hgoal : x ∈ closureAux (successors edges kinds)
        (closure_fuel (successors edges kinds) (nodesUniverse edges start)) [] [start] := by
      induction hx with
      | refl => exact hcomp.1 start (List.mem_cons_self start [])
      | tail hyz hstep ihy => exact hcomp.2 _ ihy _ hstep
    exact hgoal

/-- Claim C5: the transitive closure is cycle-safe and terminating: for every
edge set (cyclic ones included) and every starting package, the total
function related_packages_transitively returns exactly the finite set of
packages reachable through edges of the requested kinds, and an already
visited package is never re-expanded, so the result lists each package
exactly once. -/
theorem related_packages_transitively_cycle_safe (edges : List PackageEdge)
    (kinds : List Relationship) (start : Pkg) :
    (∀ x, x ∈ related_packages_transitively edges kinds start ↔
        Relation.ReflTransGen (stepRel edges kinds) start x) ∧
    (related_packages_transitively edges kinds start).Nodup :=
  ⟨fun x => mem_related_packages_transitively edges kinds start x,
   closureAux_nodup _ _ [] [start] List.nodup_nil⟩

/-- Concrete check on the spec's cyclic example: packages 1, 2, 3 in a
DependencyOf cycle resolve, from package 1, to exactly the set {1, 2, 3}. -/
theorem related_packages_cyclic_example :
    related_packages_transitively
      [{ left := 2, relationship := Relationship.dependencyOf, right := 1 },
       { left := 3, relationship := Relationship.dependencyOf, right := 2 },
       { left := 1, relationship := Relationship.dependencyOf, right := 3 }]
      [Relationship.dependencyOf] 1 = [3, 2, 1] := by
  decide

/-- Embedding of SbomContext::describes_purls (sbom/mod.rs lines 437-452,
via query_describes_packages at lines 417-433): the packages sitting at the
right end of a DescribedBy edge of this SBOM. -/
def describes_purls (edges : List PackageEdge) : List Pkg :=
  (edges.filter (fun e => e.relationship == Relationship.describedBy)).map
    (fun e => e.right)

/-- Embedding of SbomContext::vulnerability_assertions (sbom/mod.rs lines
706-734): collect the described packages, extend the applicable set with
the transitive closure over DependencyOf and ContainedBy from each of them,
then keep each applicable package with its assertion set when that set is
non-empty. The per-package assertion lookup lives outside this module and
is passed in as a function. -/
def vulnerability_assertions (edges : List PackageEdge)
    (assertionsOf : Pkg → List String) : List (Pkg × List String) :=
  (((describes_purls edges).foldl
      (fun acc pkg =>
        acc ++ related_packages_transitively edges
          [Relationship.dependencyOf, Relationship.containedBy] pkg)
      []).dedup).foldl
    (fun m pkg =>
      if assertionsOf pkg = [] then m else m ++ [(pkg, assertionsOf pkg)]) []

theorem mem_foldl_append {α β : Type} (g : α → List β) (l : List α) :
    ∀ (acc : List β) (x : β),
      (x ∈ l.foldl (fun a p => a ++ g p) acc) ↔ (x ∈ acc ∨ ∃ p ∈ l, x ∈ g p) := by
  induction l with
  | nil =>
    intro acc x
    simp
  | cons p t ih =>
    intro acc x
    rw [List.foldl_cons, ih]
    simp only [List.mem_append, List.mem_cons]
    constructor
    · rintro ((h | h) | ⟨q, hq, hx⟩)
      · exact Or.inl h
      · exact Or.inr ⟨p, Or.inl rfl, h⟩
      · exact Or.inr ⟨q, Or.inr hq, hx⟩
    · rintro (h | ⟨q, (rfl | hq), hx⟩)
      · exact Or.inl (Or.inl h)
      · exact Or.inl (Or.inr hx)
      · exact Or.inr ⟨q, hq, hx⟩

theorem mem_foldl_assertions (assertionsOf : Pkg → List String) (l : List Pkg) :
    ∀ (acc : List (Pkg × List String)) (k : Pkg) (v : List String),
      ((k, v) ∈ l.foldl (fun m pkg =>
          if assertionsOf pkg = [] then m else m ++ [(pkg, assertionsOf pkg)]) acc) ↔
        ((k, v) ∈ acc ∨ (k ∈ l ∧ assertionsOf k ≠ [] ∧ v = assertionsOf k)) := by
  induction l with
  | nil =>
    intro acc k v
    simp
  | cons p t ih =>
    intro acc k v
    rw [List.foldl_cons, ih]
    by_cases hp : assertionsOf p = []
    · rw [if_pos hp]
      simp only [List.mem_cons]
      constructor
      · rintro (h | ⟨hk, hne, hv⟩)
        · exact Or.inl h
        · exact Or.inr ⟨Or.inr hk, hne, hv⟩
      · rintro (h | ⟨(rfl | hk), hne, hv⟩)
        · exact Or.inl h
        · exact absurd hp hne
        · exact Or.inr ⟨hk, hne, hv⟩
    · rw [if_neg hp]
      simp only [List.mem_append, List.mem_cons]
      constructor
      · rintro ((h | h | h) | ⟨hk, hne, hv⟩)
        · exact Or.inl h
        · rw [Prod.mk.injEq] at h
          obtain ⟨rfl, rfl⟩ := h
          exact Or.inr ⟨Or.inl rfl, hp, rfl⟩
        · cases h
        · exact Or.inr ⟨Or.inr hk, hne, hv⟩
      · rintro (h | ⟨(rfl | hk), hne, hv⟩)
        · exact Or.inl (Or.inl h)
        · exact Or.inl (Or.inr (Or.inl (by rw [hv])))
        · exact Or.inr ⟨hk, hne, hv⟩

/-- Claim C4: the domain of vulnerability_assertions is exactly the packages
that lie in some transitive closure, over DependencyOf and ContainedBy, of
a package the SBOM describes and that carry at least one assertion; a
package with an empty assertion set is absent, and each present package is
mapped to its own assertion set. -/
theorem vulnerability_assertions_domain (edges : List PackageEdge)
    (assertionsOf : Pkg → List String) (k : Pkg) :
    ((∃ v, (k, v) ∈ vulnerability_assertions edges assertionsOf) ↔
      ((∃ p ∈ describes_purls edges,
          Relation.ReflTransGen
            (stepRel edges [Relationship.dependencyOf, Relationship.containedBy]) p k) ∧
        assertionsOf k ≠ [])) ∧
    (∀ v, (k, v) ∈ vulnerability_assertions edges assertionsOf → v = assertionsOf k) := by
  have hmem : ∀ v : List String,
      ((k, v) ∈ vulnerability_assertions edges assertionsOf) ↔
        (k ∈ (describes_purls edges).foldl
            (fun acc pkg =>
              acc ++ related_packages_transitively edges
                [Relationship.dependencyOf, Relationship.containedBy] pkg) [] ∧
          assertionsOf k ≠ [] ∧ v = assertionsOf k) := by
    intro v
    unfold vulnerability_assertions
    rw [mem_foldl_assertions]
    simp [List.mem_dedup]
  constructor
  · constructor
    · rintro ⟨v, hv⟩
      rw [hmem v] at hv
      obtain ⟨hk, hne, -⟩ := hv
      rw [mem_foldl_append] at hk
      rcases hk with h0 | ⟨p, hp, hx⟩
      · cases h0
      · exact ⟨⟨p, hp,
          (mem_related_packages_transitively edges
            [Relationship.dependencyOf, Relationship.containedBy] p k).mp hx⟩, hne⟩
    · rintro ⟨⟨p, hp, hreach⟩, hne⟩
      refine ⟨assertionsOf k, ?_⟩
      rw [hmem (assertionsOf k)]
      refine ⟨?_, hne, rfl⟩
      rw [mem_foldl_append]
      exact Or.inr ⟨p, hp,
        (mem_related_packages_transitively edges
          [Relationship.dependencyOf, Relationship.containedBy] p k).mpr hreach⟩
  · intro v hv
    rw [hmem v] at hv
    exact hv.2.2

end Trustify
